import Mathlib

/-!
Verification of the extract-variable refactoring core
(clang-tools-extra/clangd/refactor/tweaks/ExtractVariable.cpp).

The development shallowly embeds the source file's data model and
operations: selection-tree nodes over a flattened clang AST, the
reference collector, the associative-binary-operator range computation,
the eligibility filter, the insertion-point resolver, and the edit
emission of `prepare`/`apply`.  External collaborators (the selection
tree construction, source-location services, type rendering and the
edit-set container) are modelled from the specification's description of
their contracts; every definition translated from the source file keeps
the source's name where possible.
-/

namespace ExtractVar

/-- A source location: a byte offset into one file, plus the file it
belongs to, whether it lies inside a macro expansion, and whether it is
valid.  Models clang's SourceLocation as consumed by the source file. -/
structure SrcLoc where
  off : Nat
  fid : Nat
  macroID : Bool
  valid : Bool
deriving DecidableEq, Repr

/-- A source range, stored half-open at the byte level (locations carry
their own validity, so SourceRange() maps to two invalid locations). -/
structure SrcRange where
  b : SrcLoc
  e : SrcLoc
deriving DecidableEq, Repr

/-- A convenient valid, non-macro location in file 0. -/
def loc (o : Nat) : SrcLoc := ⟨o, 0, false, true⟩

/-- The invalid location (SourceLocation()). -/
def invalidLoc : SrcLoc := ⟨0, 0, false, false⟩

/-- The invalid range (SourceRange()). -/
def invalidRange : SrcRange := ⟨invalidLoc, invalidLoc⟩

/-- SourceRange::isValid: both endpoints valid. -/
def SrcRange.isValid (r : SrcRange) : Bool := r.b.valid && r.e.valid

/-- Modelled from the spec: the source-location service's containment
test (SourceManager::isPointWithin): the point lies between the two
ends in source order. -/
def isPointWithin (p b e : SrcLoc) : Bool := b.off ≤ p.off && p.off ≤ e.off

/-- Modelled from the spec: the source-location service mapping an AST
node's abstract range to a half-open byte range in the source buffer
(toHalfOpenFileRange).  Ranges in this model are stored half-open
already, so the mapping is the range itself. -/
def toHalfOpenFileRange (r : SrcRange) : SrcRange := r

/-- The fragment of clang's QualType payload the source file inspects:
void-ness, the PseudoObject placeholder, `auto`, an outer nullability
attribute, and opaque named types. -/
inductive CType where
  | voidTy
  | pseudoObject
  | autoTy
  | nullable (t : CType)
  | namedTy (n : Nat)
deriving DecidableEq, Repr

/-- AttributedType::stripOuterNullability: drop one outer nullability
attribute, leave any other type unchanged. -/
def stripOuterNullability : CType → CType
  | .nullable t => t
  | t => t

/-- The binary operator kinds the source file distinguishes
(BinaryOperatorKind). -/
inductive BinOpKind where
  | add | mul | bitAnd | bitOr | bitXor | logAnd | logOr
  | sub | div | rem | shl | ltOp | eqOp | comma
  | assign | addAssign | mulAssign
deriving DecidableEq, Repr

/-- BinaryOperator::isAssignmentOp: plain and compound assignments. -/
def isAssignmentOp : BinOpKind → Bool
  | .assign | .addAssign | .mulAssign => true
  | _ => false

/-- ParsedBinaryOperator::associative — the operator kinds treated as
associative (BO_Add, BO_Mul, BO_And, BO_Or, BO_Xor, BO_LAnd, BO_LOr). -/
def associativeOp : BinOpKind → Bool
  | .add | .mul | .bitAnd | .bitOr | .bitXor | .logAnd | .logOr => true
  | _ => false

/-- A declaration entity as the reference collector records it: its
identity, its source range, and whether it is a C++ method whose parent
class is a lambda closure type (the data VisitDeclRefExpr inspects). -/
structure CDecl where
  idn : Nat
  range : SrcRange
  isCXXMethod : Bool
  parentIsLambda : Bool
deriving DecidableEq, Repr

/-- The expression tree walked by the reference collector
(computeReferencedDecls' RecursiveASTVisitor).  `declRef` is a bare
reference to a declared entity; `leafE` a leaf with no references;
`comp` a composite whose children the generic traversal visits; `lam` a
closure literal, whose `outer` part holds everything the overridden
TraverseLambdaExpr walks (capture initializers, requires clause,
explicit template parameters, call-operator return type, parameters and
attributes — all resolved in the enclosing scope) while `body` is the
closure's own statement body, which the override does not walk. -/
inductive CExpr where
  | declRef (d : CDecl)
  | leafE
  | comp (a b : CExpr)
  | lam (outer : CExpr) (body : CExpr)
deriving DecidableEq, Repr

/-- computeReferencedDecls: all Decls referenced inside the given Expr,
in traversal order.  VisitDeclRefExpr skips a reference whose Decl is a
CXXMethodDecl of a lambda class (the call operator of an immediately
invoked lambda); TraverseLambdaExpr walks only the enclosing-scope parts
of a closure. -/
def computeReferencedDecls : CExpr → List CDecl
  | .declRef d => if d.isCXXMethod && d.parentIsLambda then [] else [d]
  | .leafE => []
  | .comp a b => computeReferencedDecls a ++ computeReferencedDecls b
  | .lam outer _ => computeReferencedDecls outer

/-- Specification-side collector: every bare reference the traversal
reaches, with no exclusion.  Used to characterise
computeReferencedDecls. -/
def bareDeclRefs : CExpr → List CDecl
  | .declRef d => [d]
  | .leafE => []
  | .comp a b => bareDeclRefs a ++ bareDeclRefs b
  | .lam outer _ => bareDeclRefs outer

/-- The clang node classes the source file distinguishes on a
selection-tree node's ASTNode, with the payload each class is asked for.
Expression classes come first, then statement classes, then
declarations.  `nullNode` models a DynTypedNode holding none of the
queried classes. -/
inductive NodeCls where
  | declRefExpr
  | memberExpr (baseImplicitThis : Bool)
  | thisExpr
  | binaryOp (op : BinOpKind) (lhsId rhsId : Nat)
  | operatorCall (isInfixBinary : Bool) (op : BinOpKind) (arg0Id arg1Id : Nat)
  | callExpr (calleeId : Nat)
  | lambdaExpr
  | objcPropertyRef (messagingSetter messagingGetter : Bool) (propTy : Option CType)
  | otherExpr
  | compoundStmt
  | declStmt
  | returnStmt
  | attributedStmt
  | ifStmt (thenId : Nat) (elseId : Option Nat)
  | whileStmt (bodyId : Nat)
  | doStmt (bodyId : Nat)
  | forStmt (bodyId : Nat)
  | forRangeStmt (bodyId : Nat)
  | switchCase
  | otherStmt
  | varDecl (isParm isInitCapture : Bool) (initId : Option Nat)
  | otherDecl
  | nullNode
deriving DecidableEq, Repr

/-- isa<clang::Expr>: the expression classes. -/
def NodeCls.isExprCls : NodeCls → Bool
  | .declRefExpr | .memberExpr _ | .thisExpr | .binaryOp .. | .operatorCall ..
  | .callExpr _ | .lambdaExpr | .objcPropertyRef .. | .otherExpr => true
  | _ => false

/-- Whether ASTNode.get<clang::Stmt>() succeeds: clang's Expr derives
from Stmt, so every expression class is also a statement class. -/
def NodeCls.isStmtCls (c : NodeCls) : Bool :=
  c.isExprCls ||
    match c with
    | .compoundStmt | .declStmt | .returnStmt | .attributedStmt | .ifStmt ..
    | .whileStmt _ | .doStmt _ | .forStmt _ | .forRangeStmt _ | .switchCase
    | .otherStmt => true
    | _ => false

/-- The AST construct a selection-tree node refers to: its class, its
identity (standing in for the node's address, for the source's pointer
comparisons), its source range, the location of its operator for binary
operators (getExprLoc), its static type for expressions (none models a
null QualType), and, for the candidate expression, the expression tree
the reference collector walks. -/
structure AstNode where
  cls : NodeCls
  idn : Nat
  range : SrcRange
  exprLoc : SrcLoc := loc 0
  qtype : Option CType := none
  uexpr : Option CExpr := none
deriving DecidableEq, Repr

/-- ASTNode.get<clang::Stmt>(): the node itself when it is a statement
(or expression), else null. -/
def getStmt (n : AstNode) : Option AstNode :=
  if n.cls.isStmtCls then some n else none

/-- ASTNode.get<clang::Expr>(). -/
def getExpr (n : AstNode) : Option AstNode :=
  if n.cls.isExprCls then some n else none

/-- ASTNode.get<VarDecl>(): ParmVarDecl derives from VarDecl, so both
succeed. -/
def getVarDecl (n : AstNode) : Option AstNode :=
  match n.cls with
  | .varDecl _ _ _ => some n
  | _ => none

/-- ASTNode.get<ParmVarDecl>(): only a parameter declaration. -/
def getParmVarDecl (n : AstNode) : Option AstNode :=
  match n.cls with
  | .varDecl true _ _ => some n
  | _ => none

/-- The identity of a node's expression, when it is one (the value of
the pointer ASTNode.get<Expr>() for equality comparisons; none models
the null pointer). -/
def exprIdOf (n : AstNode) : Option Nat := (getExpr n).map (·.idn)

/-- A selection-tree node's coverage tag (SelectionTree::Selection). -/
inductive SelCover where
  | unselected
  | partialSel
  | complete
deriving DecidableEq, Repr

/-- A selection-tree node: the AST construct it refers to, its coverage
tag, and its selected children (the tree overlay holds only nodes
intersecting the user's selection). -/
inductive SelNode where
  | mk (ast : AstNode) (sel : SelCover) (children : List SelNode)

/-- The AST construct of a selection node. -/
def SelNode.ast : SelNode → AstNode
  | .mk a _ _ => a

/-- The coverage tag of a selection node. -/
def SelNode.sel : SelNode → SelCover
  | .mk _ s _ => s

/-- The selected children of a selection node. -/
def SelNode.children : SelNode → List SelNode
  | .mk _ _ cs => cs

/-- Modelled from the spec: the selection-tree service's
Node::ignoreImplicit — descend through implicit wrapper nodes, which
have a single child sharing their whole source range. -/
def ignoreImplicit : SelNode → SelNode
  | .mk a s [] => .mk a s []
  | .mk a s [c] => if c.ast.range = a.range then ignoreImplicit c else .mk a s [c]
  | n => n

/-- A position in the selection tree: the node itself together with its
ancestor chain, nearest parent first (the arena-style back-references of
the tree overlay). -/
structure SelPos where
  node : SelNode
  ancestors : List SelNode

/-- Modelled from the spec: the selection-tree service's
Node::outerImplicit — ascend through implicit parent nodes sharing the
node's whole source range; returns the reached node's AST construct and
the remaining ancestor chain. -/
def outerImplicitAst : AstNode → List SelNode → AstNode × List SelNode
  | a, [] => (a, [])
  | a, p :: rest =>
    if p.ast.range = a.range then outerImplicitAst p.ast rest else (a, p :: rest)

mutual

/-- The recursive helper of eligibleForExtraction's IsFullySelected: a
node with a valid source range must be completely covered, and so must
all its children, recursively. -/
def isFullySelected : SelNode → Bool
  | .mk a s cs =>
    (!(a.range.isValid && !(s = SelCover.complete))) && isFullySelectedList cs

/-- isFullySelected over a child list. -/
def isFullySelectedList : List SelNode → Bool
  | [] => true
  | c :: cs => isFullySelected c && isFullySelectedList cs

end

mutual

/-- The number of nodes of a selection subtree (the termination fuel for
the binary-operator descent loop). -/
def selSize : SelNode → Nat
  | .mk _ _ cs => 1 + selSizeList cs

/-- selSize summed over a child list. -/
def selSizeList : List SelNode → Nat
  | [] => 0
  | c :: cs => selSize c + selSizeList cs

end

/-- Information extracted about a binary operator encountered in a
selection tree (ParsedBinaryOperator): operator kind, the operator's
expression location, and the selected operand nodes. -/
structure ParsedBinOp where
  kind : BinOpKind
  exprLoc : SrcLoc
  selectedOperands : List SelNode

/-- ParsedBinaryOperator::parse: a built-in BinaryOperator contributes
its opcode and all its selected children; an overloaded operator call
(CXXOperatorCallExpr) must be an infix binary operator, contributes the
overloaded opcode, and keeps only the children that are one of its two
argument expressions (the callee is not an operand); anything else is
not a binary operator. -/
def parseBinOp (n : SelNode) : Option ParsedBinOp :=
  match n.ast.cls with
  | .binaryOp op _ _ => some ⟨op, n.ast.exprLoc, n.children⟩
  | .operatorCall infixBinary op a0 a1 =>
    if infixBinary then
      some ⟨op, n.ast.exprLoc,
            n.children.filter fun c => c.ast.idn == a0 || c.ast.idn == a1⟩
    else none
  | _ => none

/-- ParsedBinaryOperator::crossesMacroBoundary: some selected operand's
expression location lies in a different file than the operator's. -/
def crossesMacroBoundary (p : ParsedBinOp) : Bool :=
  p.selectedOperands.any fun c => !(c.ast.exprLoc.fid == p.exprLoc.fid)

/-- The descent loop of getBinaryOperatorRange: push the start (LHS)
boundary down the left spine while the node re-parses as the same
operator kind without crossing a macro boundary; when only the right
operand is selected it becomes the new start and the loop stops,
otherwise descend into the left operand.  The fuel bounds the descent by
the subtree size (the C++ loop always terminates because each step moves
to a strict subtree). -/
def binOpStartLoop (outerOp : BinOpKind) : Nat → SelNode → SelNode
  | 0, start => start
  | fuel + 1, start =>
    match parseBinOp (ignoreImplicit start) with
    | some op =>
      if op.kind = outerOp && !crossesMacroBoundary op then
        match op.selectedOperands with
        | [] => start
        | [x] => x
        | x :: _ :: _ => binOpStartLoop outerOp fuel x
      else start
    | none => start

/-- getBinaryOperatorRange: if the node is an associative binary
operator with both operand children selected and no macro crossing, the
half-open range from the pushed-down start node's begin to the rightmost
selected operand's end; otherwise the invalid range. -/
def getBinaryOperatorRange (n : SelNode) : SrcRange :=
  match parseBinOp (ignoreImplicit n) with
  | none => invalidRange
  | some op =>
    if !(associativeOp op.kind) || crossesMacroBoundary op
        || !(op.selectedOperands.length == 2) then invalidRange
    else
      match op.selectedOperands with
      | [s0, e0] =>
        let start := binOpStartLoop op.kind (selSize s0) s0
        ⟨(toHalfOpenFileRange start.ast.range).b, (toHalfOpenFileRange e0.ast.range).e⟩
      | _ => invalidRange

/-- ExtractionContext::exprIsValidOutside: true when no referenced
declaration with a valid begin location lies entirely within the scope
statement's range. -/
def exprIsValidOutside (refs : List CDecl) (scope : AstNode) : Bool :=
  refs.all fun d =>
    !(d.range.b.valid && isPointWithin d.range.b scope.range.b scope.range.e
        && isPointWithin d.range.e scope.range.b scope.range.e)

/-- The statement classes through which the insertion-point search may
ascend (computeInsertionPoint's CanExtractOutside, non-expression
case). -/
def isAllowedAncestorStmt : NodeCls → Bool
  | .attributedStmt | .compoundStmt | .forRangeStmt _ | .declStmt
  | .doStmt _ | .forStmt _ | .ifStmt _ _ | .returnStmt | .whileStmt _ => true
  | _ => false

/-- computeInsertionPoint's CanExtractOutside: an expression may be
ascended from unless it is the initializer of a defaulted parameter (its
parent is a ParmVarDecl); a non-expression statement must be of an
allowed class (no switch/case/label); a non-statement node must be a
bound variable declaration. -/
def canExtractOutside (cur parentAst : AstNode) : Bool :=
  match getStmt cur with
  | some s =>
    if s.cls.isExprCls then !(getParmVarDecl parentAst).isSome
    else isAllowedAncestorStmt s.cls
  | none => (getVarDecl cur).isSome

/-- The ascent loop of ExtractionContext::computeInsertionPoint: walk up
while a parent exists and CanExtractOutside holds; abort when the
statement being passed over contains a referenced declaration; when the
parent is a CompoundStmt, return the current statement as the insertion
point unless the block's begin lies inside a macro expansion, in which
case keep ascending. -/
def insertionLoop (refs : List CDecl) : SelNode → List SelNode → Option AstNode
  | _, [] => none
  | cur, parent :: rest =>
    if !canExtractOutside cur.ast parent.ast then none
    else if cur.ast.cls.isStmtCls && !exprIsValidOutside refs cur.ast then none
    else if parent.ast.cls = NodeCls.compoundStmt then
      if parent.ast.range.b.macroID then insertionLoop refs parent rest
      else getStmt cur.ast
    else insertionLoop refs parent rest

/-- The language options the source file consults. -/
structure LangOptions where
  cplusplus11 : Bool

/-- computeVariableType: under C++11 the deduced `auto` type; for a
PseudoObject placeholder, an Objective-C property getter's property
type, null for a messaging setter, and null for any other placeholder
expression; otherwise the expression's static type. -/
def computeVariableType (e : AstNode) (lang : LangOptions) : Option CType :=
  if lang.cplusplus11 then some CType.autoTy
  else if e.qtype = some CType.pseudoObject then
    match e.cls with
    | .objcPropertyRef setter getter propTy =>
      if setter then none
      else if getter then propTy
      else e.qtype
    | _ => none
  else e.qtype

/-- The extraction context: the validated candidate bound to its
referenced declarations, insertion point, inferred variable type and
extractability flag (ExtractionContext's fields). -/
structure ExtractionContext where
  extractable : Bool
  varType : Option CType
  exprNode : SelPos
  insertionPoint : Option AstNode
  referencedDecls : List CDecl

/-- ExtractionContext's constructor: collect the candidate's referenced
declarations, compute the insertion point, mark extractable when one was
found, then compute the variable type, clearing extractability when it
is null and stripping its outer nullability otherwise. -/
def ExtractionContext.make (pos : SelPos) (lang : LangOptions) : ExtractionContext :=
  let refs := ((pos.node.ast.uexpr).map computeReferencedDecls).getD []
  let ip := insertionLoop refs pos.node pos.ancestors
  let vt := computeVariableType pos.node.ast lang
  { extractable := ip.isSome && vt.isSome
    varType := vt.map stripOuterNullability
    exprNode := pos
    insertionPoint := ip
    referencedDecls := refs }

/-- ExtractionContext::getExtractionChars: the binary-operator subrange
when it is valid, otherwise the whole candidate expression's half-open
range. -/
def getExtractionChars (pos : SelPos) : SrcRange :=
  let bin := getBinaryOperatorRange pos.node
  if bin.isValid then bin
  else toHalfOpenFileRange pos.node.ast.range

/-- childExprIsDisallowedStmt: whether Inner (a direct child of Outer)
appears as a statement whose value is discarded rather than as an
expression whose value can be used: any child of a case/default label,
or the governed body of a while/do/for/range-for loop, or a then/else
branch of an if.  Null Outer or Inner, and every other context
(subexpressions included), give false. -/
def childExprIsDisallowedStmt (outer inner : Option AstNode) : Bool :=
  match outer, inner with
  | some o, some i =>
    match o.cls with
    | .switchCase => true
    | .whileStmt b => i.idn == b
    | .doStmt b => i.idn == b
    | .forStmt b => i.idn == b
    | .forRangeStmt b => i.idn == b
    | .ifStmt t els => i.idn == t || els == some i.idn
    | _ => false
  | _, _ => false

/-- eligibleForExtraction's ExprIsFullySelectedTargetNode: the compared
expression must be the outer-implicit target node itself (null equals
null), and for binary operators every node of the candidate subtree must
additionally be completely selected. -/
def exprFullySelectedTarget (n : SelNode) (isBinOp : Bool) (oiAst : AstNode)
    (eid : Option Nat) : Bool :=
  if !(eid == exprIdOf oiAst) then false
  else if !isBinOp then true
  else isFullySelected n

/-- Whether the expression class is a member access on an implicit
`this` (the data of the dyn_cast chain MemberExpr → base →
IgnoreImpCasts → implicit CXXThisExpr). -/
def isImplicitThisMember : NodeCls → Bool
  | .memberExpr b => b
  | _ => false

/-- eligibleForExtraction: the battery of semantic predicates deciding
whether the node can and should be extracted — it must be an expression
with a non-null, non-void type, not a plain declaration reference, not a
member access on an implicit this, not an assignment operator, it must
have a parent beyond its implicit wrappers, its value must not be
discarded by the parent statement's control semantics, it must not be
the fully selected right-hand side of an assignment, a lambda must be
completely selected, and it must not be the fully selected initializer
of a variable that is not an init-capture. -/
def eligibleForExtraction (pos : SelPos) : Bool :=
  match getExpr pos.node.ast with
  | none => false
  | some e =>
    if e.qtype = none || e.qtype = some CType.voidTy then false
    else if e.cls = NodeCls.declRefExpr then false
    else if isImplicitThisMember e.cls then false
    else
      let binParse := parseBinOp pos.node
      if (match binParse with
          | some op => isAssignmentOp op.kind
          | none => false) then false
      else
        let isBinOp := binParse.isSome
        match outerImplicitAst pos.node.ast pos.ancestors with
        | (_, []) => false
        | (oiAst, parent :: _) =>
          if childExprIsDisallowedStmt (getStmt parent.ast) (getExpr oiAst) then
            false
          else if (match parent.ast.cls with
                   | .binaryOp op _ rhsId =>
                     isAssignmentOp op
                       && exprFullySelectedTarget pos.node isBinOp oiAst (some rhsId)
                   | _ => false) then false
          else if e.cls = NodeCls.lambdaExpr then pos.node.sel = SelCover.complete
          else
            match parent.ast.cls with
            | .varDecl _ isInitCapture initId =>
              !(!isInitCapture
                  && exprFullySelectedTarget pos.node isBinOp oiAst initId)
            | _ => true

/-- getCallExpr: the call expression whose callee is the (possibly
implicitly wrapped) declaration reference — the outer-implicit node's
parent must be a CallExpr and that call's callee must be the
outer-implicit node itself. -/
def getCallExpr (pos : SelPos) : Option SelPos :=
  match outerImplicitAst pos.node.ast pos.ancestors with
  | (_, []) => none
  | (calleeAst, parent :: rest) =>
    match parent.ast.cls with
    | .callExpr calleeId =>
      if exprIdOf calleeAst == some calleeId then some ⟨parent, rest⟩ else none
    | _ => none

/-- isa<MemberExpr> on an expression class. -/
def isMemberCls : NodeCls → Bool
  | .memberExpr _ => true
  | _ => false

/-- computeExtractedExpr: the node to extract — a function or member
reference is retargeted to its enclosing call; a plain assignment
expression is refused outright; the (possibly retargeted) node must pass
the eligibility filter. -/
def computeExtractedExpr (pos : SelPos) : Option SelPos :=
  match getExpr pos.node.ast with
  | none => none
  | some selectedExpr =>
    let target :=
      if (selectedExpr.cls = NodeCls.declRefExpr
            || isMemberCls selectedExpr.cls) then
        match getCallExpr pos with
        | some call => call
        | none => pos
      else pos
    if (match selectedExpr.cls with
        | .binaryOp op _ _ => op == BinOpKind.assign
        | _ => false) then none
    else if eligibleForExtraction target then some target
    else none

/-- A text edit (tooling::Replacement): the targeted buffer, the
half-open byte range it replaces, and the replacement text. -/
structure Replacement where
  fid : Nat
  off : Nat
  len : Nat
  text : String
deriving DecidableEq, Repr

/-- ExtractionContext::replaceWithVar: replace the extraction range with
the variable name — an edit at the range's begin whose length is the
difference of the two ends' file offsets. -/
def replaceWithVar (chars : SrcRange) (varName : String) : Replacement :=
  { fid := chars.b.fid
    off := chars.b.off
    len := chars.e.off - chars.b.off
    text := varName }

/-- The source buffer access the edits read (SourceManager's text). -/
structure SourceManager where
  buf : String

/-- Modelled from the spec: the source-text service (toSourceCode) —
the substring of the buffer covered by a half-open range. -/
def toSourceCode (sm : SourceManager) (r : SrcRange) : String :=
  String.mk ((sm.buf.toList.drop r.b.off).take (r.e.off - r.b.off))

/-- Modelled from the spec: the type-rendering collaborator (printType):
source-syntax text for "<type> <name>". -/
def typeText : CType → String
  | .voidTy => "void"
  | .pseudoObject => "pseudo"
  | .autoTy => "auto"
  | .nullable t => typeText t
  | .namedTy n => "T" ++ toString n

/-- printType over an optional (possibly null) type. -/
def printType (t : Option CType) (varName : String) : String :=
  (match t with
   | some ty => typeText ty
   | none => "") ++ " " ++ varName

/-- ExtractionContext::insertDeclaration: a zero-length edit at the
insertion point's begin containing "<type> <name> = <extracted
code>", followed by "; " exactly when a semicolon is requested. -/
def ExtractionContext.insertDeclaration (ctx : ExtractionContext)
    (sm : SourceManager) (ip : AstNode) (varName : String)
    (initChars : SrcRange) (addSemicolon : Bool) : Replacement :=
  let extractionCode := toSourceCode sm initChars
  let insertionLoc := (toHalfOpenFileRange ip.range).b
  let extractedVarDecl := printType ctx.varType varName ++ " = " ++ extractionCode
  { fid := insertionLoc.fid
    off := insertionLoc.off
    len := 0
    text := extractedVarDecl ++ (if addSemicolon then "; " else "") }

/-- Modelled from the spec: when the edit-set container
(tooling::Replacements) treats two edits as conflicting — different
buffers, two insertions at the same offset, or properly overlapping
byte ranges. -/
def rangesConflict (r1 r2 : Replacement) : Bool :=
  !(r1.fid == r2.fid)
    || (r1.len == 0 && r2.len == 0 && r1.off == r2.off)
    || decide (max r1.off r2.off < min (r1.off + r1.len) (r2.off + r2.len))

/-- Modelled from the spec: tooling::Replacements::add — adding an edit
that conflicts with one already in the set reports an error, otherwise
the edit joins the set. -/
def addReplacement (rs : List Replacement) (r : Replacement) :
    Except String (List Replacement) :=
  if rs.any fun r0 => rangesConflict r0 r then Except.error "conflict"
  else Except.ok (rs ++ [r])

/-- The IsExprStmt test of ExtractVariable::apply: the candidate's
outer-implicit parent is a sequential-statement block (CompoundStmt), so
the extraction is itself an expression statement. -/
def applyIsExprStmt (pos : SelPos) : Bool :=
  match (outerImplicitAst pos.node.ast pos.ancestors).2.head? with
  | some p => p.ast.cls = NodeCls.compoundStmt
  | none => false

/-- ExtractVariable::apply: insert the new variable declaration (with a
trailing semicolon if and only if the extraction is not an expression
statement), then replace the extraction range with the variable name (or
with empty text for an expression statement); each insertion into the
edit set may report a conflict, which is propagated as an error. -/
def applyExtractVariable (sm : SourceManager) (ctx : ExtractionContext) :
    Except String (List Replacement) :=
  let varName := "placeholder"
  let range := getExtractionChars ctx.exprNode
  let isExprStmt := applyIsExprStmt ctx.exprNode
  match ctx.insertionPoint with
  | none => Except.error "no insertion point"
  | some ip =>
    match addReplacement [] (ctx.insertDeclaration sm ip varName range (!isExprStmt)) with
    | Except.error e => Except.error e
    | Except.ok rs1 =>
      match addReplacement rs1 (replaceWithVar range (if isExprStmt then "" else varName)) with
      | Except.error e => Except.error e
      | Except.ok rs2 => Except.ok rs2

/-- ExtractVariable::prepare: refuse empty selections; find the
candidate via computeExtractedExpr on the selection's common ancestor;
construct the extraction context and report its extractability. -/
def prepareExtractVariable (selBegin selEnd : Nat)
    (commonAncestor : Option SelPos) (lang : LangOptions) : Bool :=
  if selBegin = selEnd then false
  else
    match commonAncestor.bind computeExtractedExpr with
    | some n => (ExtractionContext.make n lang).extractable
    | none => false

/-! Concrete selection trees used to instantiate the theorems.  The
first family models the source text `a + b + c + d` (offsets: a at 0,
b at 4, c at 8, d at 12) parsed left-associatively as ((a+b)+c)+d, with
the user selection exactly covering `b + c` (bytes [4, 9)); the common
ancestor of the selection is the subexpression (a+b)+c. -/

/-- The reference `a` (unselected, so absent from the selection tree). -/
def astA : AstNode :=
  { cls := .declRefExpr, idn := 1, range := ⟨loc 0, loc 1⟩, exprLoc := loc 0
    qtype := some (.namedTy 1) }

/-- The reference `b`, bytes [4, 5). -/
def astB : AstNode :=
  { cls := .declRefExpr, idn := 2, range := ⟨loc 4, loc 5⟩, exprLoc := loc 4
    qtype := some (.namedTy 1) }

/-- The reference `c`, bytes [8, 9). -/
def astC : AstNode :=
  { cls := .declRefExpr, idn := 3, range := ⟨loc 8, loc 9⟩, exprLoc := loc 8
    qtype := some (.namedTy 1) }

/-- The subexpression `a + b`, bytes [0, 5). -/
def astN1 : AstNode :=
  { cls := .binaryOp .add 1 2, idn := 10, range := ⟨loc 0, loc 5⟩
    exprLoc := loc 2, qtype := some (.namedTy 1) }

/-- The subexpression `a + b + c`, bytes [0, 9). -/
def astN2 : AstNode :=
  { cls := .binaryOp .add 10 3, idn := 11, range := ⟨loc 0, loc 9⟩
    exprLoc := loc 6, qtype := some (.namedTy 1) }

/-- Selection node for `b` (completely selected leaf). -/
def selB : SelNode := .mk astB .complete []

/-- Selection node for `a + b`: only its right operand `b` intersects
the selection. -/
def selN1 : SelNode := .mk astN1 .partialSel [selB]

/-- Selection node for `c` (completely selected leaf). -/
def selC : SelNode := .mk astC .complete []

/-- Selection node for `a + b + c`, the common ancestor of the
selection, with both operand children present. -/
def selN2 : SelNode := .mk astN2 .partialSel [selN1, selC]

/-- The byte range of the text `b + c`: [4, 9). -/
def rangeBC : SrcRange := ⟨loc 4, loc 9⟩

/-! Fixtures for the disallowed-statement contexts: an expression
appearing as a while loop's body, and the same expression appearing
inside an enclosing (value-producing) call expression. -/

/-- A candidate expression with a non-void type, bytes [30, 35). -/
def astE5 : AstNode :=
  { cls := .otherExpr, idn := 5, range := ⟨loc 30, loc 35⟩, exprLoc := loc 30
    qtype := some (.namedTy 1), uexpr := some .leafE }

/-- A while statement whose governed body is astE5. -/
def astWhile : AstNode :=
  { cls := .whileStmt 5, idn := 20, range := ⟨loc 20, loc 36⟩ }

/-- An enclosing sequential-statement block. -/
def astCompound : AstNode :=
  { cls := .compoundStmt, idn := 21, range := ⟨loc 0, loc 40⟩ }

/-- A call expression having astE5 among its arguments. -/
def astCall6 : AstNode :=
  { cls := .callExpr 99, idn := 6, range := ⟨loc 28, loc 36⟩, exprLoc := loc 28
    qtype := some (.namedTy 2) }

/-- The candidate positioned as the while loop's body. -/
def whileBodyPos : SelPos :=
  ⟨.mk astE5 .complete [], [.mk astWhile .partialSel [], .mk astCompound .partialSel []]⟩

/-- The candidate positioned as a subexpression of a call. -/
def exprChildPos : SelPos :=
  ⟨.mk astE5 .complete [],
   [.mk astCall6 .partialSel [], .mk astCompound .partialSel []]⟩

/-! Fixtures for the scope-safety scenario: source text
`{ int y = 1, z = y + 1; }` — the candidate `y + 1` (bytes [17, 22))
references `y`, whose declaration (bytes [6, 11)) lies inside the
declaration statement (bytes [2, 23)) that the insertion-point search
must pass over; the only block is the enclosing compound statement. -/

/-- The declaration of `y`, bytes [6, 11), inside the DeclStmt. -/
def yDecl : CDecl :=
  { idn := 100, range := ⟨loc 6, loc 11⟩, isCXXMethod := false
    parentIsLambda := false }

/-- The candidate `y + 1`, referencing yDecl. -/
def astYplus1 : AstNode :=
  { cls := .otherExpr, idn := 40, range := ⟨loc 17, loc 22⟩, exprLoc := loc 17
    qtype := some (.namedTy 1), uexpr := some (.declRef yDecl) }

/-- The bound variable `z`, initialized by the candidate. -/
def astVarZ : AstNode :=
  { cls := .varDecl false false (some 40), idn := 41, range := ⟨loc 13, loc 22⟩ }

/-- The declaration statement `int y = 1, z = y + 1;` containing both
the declaration of y and the candidate. -/
def astDeclStmtYZ : AstNode :=
  { cls := .declStmt, idn := 42, range := ⟨loc 2, loc 23⟩ }

/-- The only enclosing block. -/
def astBlockY : AstNode :=
  { cls := .compoundStmt, idn := 43, range := ⟨loc 0, loc 25⟩ }

/-- The candidate's selection node. -/
def yPlusNode : SelNode := .mk astYplus1 .complete []

/-- The candidate's ancestor chain up to the block. -/
def yChainAnc : List SelNode :=
  [.mk astVarZ .partialSel [], .mk astDeclStmtYZ .partialSel [],
   .mk astBlockY .partialSel []]

/-! Fixtures for the macro-skip scenario: the block directly enclosing
the candidate begins inside a macro expansion, and a further enclosing
block does not. -/

/-- A candidate expression inside the macro-generated block. -/
def astInMac : AstNode :=
  { cls := .otherExpr, idn := 50, range := ⟨loc 52, loc 55⟩, exprLoc := loc 52
    qtype := some (.namedTy 1), uexpr := some .leafE }

/-- The block whose begin location lies inside a macro expansion. -/
def astMacBlock : AstNode :=
  { cls := .compoundStmt, idn := 51, range := ⟨⟨50, 0, true, true⟩, loc 60⟩ }

/-- The enclosing non-macro block. -/
def astOuterBlock : AstNode :=
  { cls := .compoundStmt, idn := 52, range := ⟨loc 40, loc 70⟩ }

/-- The candidate's selection node for the macro-skip scenario. -/
def inMacNode : SelNode := .mk astInMac .complete []

/-- The macro block's selection node. -/
def macBlockNode : SelNode := .mk astMacBlock .partialSel []

/-- The outer block's selection node. -/
def outerBlockNode : SelNode := .mk astOuterBlock .partialSel []

/-! Fixtures for the defaulted-parameter scenario: the candidate is the
default-argument initializer of a parameter declaration (e.g. a
parameter of a function-local lambda), with a block further up. -/

/-- The default-argument initializer expression. -/
def astParmInitE : AstNode :=
  { cls := .otherExpr, idn := 60, range := ⟨loc 80, loc 90⟩, exprLoc := loc 80
    qtype := some (.namedTy 1), uexpr := some .leafE }

/-- The parameter declaration owning the initializer. -/
def astParmDecl : AstNode :=
  { cls := .varDecl true false (some 60), idn := 61, range := ⟨loc 75, loc 90⟩ }

/-- A declaration statement above the parameter. -/
def astParmDeclStmt : AstNode :=
  { cls := .declStmt, idn := 62, range := ⟨loc 70, loc 95⟩ }

/-- The block enclosing everything. -/
def astParmBlock : AstNode :=
  { cls := .compoundStmt, idn := 63, range := ⟨loc 65, loc 99⟩ }

/-- The candidate's selection node for the parameter scenario. -/
def parmInitNode : SelNode := .mk astParmInitE .complete []

/-- The parameter declaration's selection node. -/
def parmDeclNode : SelNode := .mk astParmDecl .partialSel []

/-- The ancestor chain for the parameter scenario. -/
def parmChainAnc : List SelNode :=
  [parmDeclNode, .mk astParmDeclStmt .partialSel [], .mk astParmBlock .partialSel []]

/-! Fixtures for an extractable candidate and its apply run: source text
`int x = f(y); g();` — the candidate `f(y)` (bytes [8, 12)) initializes
x; the insertion point found is the declaration statement (bytes
[0, 13)) whose parent is the function body block. -/

/-- The source buffer of the apply fixture. -/
def sm0 : SourceManager := ⟨"int x = f(y); g();"⟩

/-- The candidate `f(y)`, bytes [8, 12). -/
def astE8 : AstNode :=
  { cls := .otherExpr, idn := 70, range := ⟨loc 8, loc 12⟩, exprLoc := loc 8
    qtype := some (.namedTy 1), uexpr := some .leafE }

/-- The declared variable `x` the candidate initializes. -/
def astVarX : AstNode :=
  { cls := .varDecl false false (some 70), idn := 71, range := ⟨loc 4, loc 12⟩ }

/-- The declaration statement `int x = f(y);`, bytes [0, 13). -/
def astDeclStmtX : AstNode :=
  { cls := .declStmt, idn := 72, range := ⟨loc 0, loc 13⟩ }

/-- The function body block. -/
def astBlockX : AstNode :=
  { cls := .compoundStmt, idn := 73, range := ⟨loc 0, loc 18⟩ }

/-- The apply fixture's candidate position. -/
def posA : SelPos :=
  ⟨.mk astE8 .complete [],
   [.mk astVarX .partialSel [], .mk astDeclStmtX .partialSel [],
    .mk astBlockX .partialSel []]⟩

/-- The extraction context of the apply fixture (C++11 language mode). -/
def ctxA : ExtractionContext := ExtractionContext.make posA ⟨true⟩

/-- The two edits apply produces on the apply fixture: insertion of the
declaration before the statement, and substitution of the candidate. -/
def rsA : List Replacement :=
  [⟨0, 0, 0, "auto placeholder = f(y); "⟩, ⟨0, 8, 4, "placeholder"⟩]

/-- C1: for every extraction context constructed from a selection node,
the candidate is extractable if and only if both an insertion point was
found and the inferred variable type is non-null; if either is missing,
the candidate is reported not extractable. -/
theorem make_extractable_iff (pos : SelPos) (lang : LangOptions) :
    (ExtractionContext.make pos lang).extractable = true ↔
      ((ExtractionContext.make pos lang).insertionPoint.isSome = true
        ∧ (ExtractionContext.make pos lang).varType.isSome = true) := by
  cases hvt : computeVariableType pos.node.ast lang <;>
    cases hip : insertionLoop
        ((pos.node.ast.uexpr.map computeReferencedDecls).getD [])
        pos.node pos.ancestors <;>
    simp [ExtractionContext.make, hvt, hip]

/-- C2: for the chain `a + b + c + d` (grouped by the AST as
((a+b)+c)+d) with the selection exactly covering `b + c`, the computed
extraction range is the byte range [4, 9) of `b + c` — its left end is
`b`'s begin and its right end is `c`'s end — and not the byte range of
the candidate AST node `a + b + c`. -/
theorem assoc_chain_extraction_range :
    getBinaryOperatorRange selN2 = rangeBC
      ∧ rangeBC.b = astB.range.b ∧ rangeBC.e = astC.range.e
      ∧ rangeBC ≠ toHalfOpenFileRange astN2.range := by decide

/-- C5: childExprIsDisallowedStmt holds exactly when the parent is a
case/default label, or the child is the governed body of a while, do,
for or range-for loop, or a then/else branch of an if; every other
parent context is treated as value-producing.  Concretely, an otherwise
eligible candidate standing as a while loop's body is rejected, and the
same candidate standing inside an enclosing call expression is
accepted. -/
theorem disallowed_parent_contexts :
    (∀ o i : AstNode,
        childExprIsDisallowedStmt (some o) (some i) = true ↔
          (o.cls = NodeCls.switchCase
            ∨ (∃ b, o.cls = NodeCls.whileStmt b ∧ i.idn = b)
            ∨ (∃ b, o.cls = NodeCls.doStmt b ∧ i.idn = b)
            ∨ (∃ b, o.cls = NodeCls.forStmt b ∧ i.idn = b)
            ∨ (∃ b, o.cls = NodeCls.forRangeStmt b ∧ i.idn = b)
            ∨ (∃ t els, o.cls = NodeCls.ifStmt t els
                ∧ (i.idn = t ∨ els = some i.idn))))
      ∧ eligibleForExtraction whileBodyPos = false
      ∧ eligibleForExtraction exprChildPos = true := by
  refine ⟨?_, by decide, by decide⟩
  intro o i
  cases h : o.cls <;> simp [childExprIsDisallowedStmt, h]
  constructor
  · intro hh
    exact ⟨_, _, ⟨rfl, rfl⟩, hh⟩
  · rintro ⟨t, els, ⟨rfl, rfl⟩, hh⟩
    exact hh

/-- C6: the reference collector returns exactly the bare references its
traversal reaches, except those whose declaration is a call operator of
a lambda closure (the self-reference of an immediately invoked
closure); it is a total function and may return the empty sequence. -/
theorem referenced_decls_filter :
    (∀ e : CExpr,
        computeReferencedDecls e
          = (bareDeclRefs e).filter fun d => !(d.isCXXMethod && d.parentIsLambda))
      ∧ computeReferencedDecls CExpr.leafE = [] := by
  refine ⟨?_, rfl⟩
  intro e
  induction e with
  | declRef d =>
    by_cases h : (d.isCXXMethod && d.parentIsLambda) = true <;>
      simp [computeReferencedDecls, bareDeclRefs, List.filter, h]
  | leafE => rfl
  | comp a b iha ihb =>
    simp [computeReferencedDecls, bareDeclRefs, List.filter_append, iha, ihb]
  | lam outer body iho ihb =>
    simp [computeReferencedDecls, bareDeclRefs, iho]

/-- C3: the insertion-point search never returns a statement containing
the declaration of a referenced entity — any returned insertion point
satisfies exprIsValidOutside — and on the scope-safety scenario (the
candidate `y + 1` referencing `y`, declared inside the declaration
statement the search must pass over, with the enclosing block the only
block available) the search aborts and finds no insertion point. -/
theorem insertion_point_scope_safe :
    (∀ (refs : List CDecl) (cur : SelNode) (anc : List SelNode) (ip : AstNode),
        insertionLoop refs cur anc = some ip →
          exprIsValidOutside refs ip = true)
      ∧ insertionLoop [yDecl] yPlusNode yChainAnc = none := by
  refine ⟨?_, by decide⟩
  intro refs cur anc
  induction anc generalizing cur with
  | nil => intro ip h; simp [insertionLoop] at h
  | cons parent rest ih =>
    intro ip h
    simp only [insertionLoop] at h
    split at h
    · simp at h
    · split at h
      · simp at h
      · rename_i hvalid
        split at h
        · split at h
          · exact ih parent ip h
          · simp only [getStmt] at h
            split at h
            · rename_i hstmt
              obtain rfl : cur.ast = ip := by
                simpa using h
              simp only [hstmt, Bool.true_and, Bool.not_eq_true'] at hvalid
              simpa using hvalid
            · simp at h
        · exact ih parent ip h

/-- C7: every insertion point the resolver returns is a statement on the
ascent chain whose immediate parent is a compound statement whose begin
location is not inside a macro expansion; and on the macro-skip scenario
the resolver does not return the candidate inside the macro block but
ascends and returns the inner block itself, before which insertion
happens inside the outer, non-macro block. -/
theorem insertion_point_block_parent :
    (∀ (refs : List CDecl) (cur : SelNode) (anc : List SelNode) (ip : AstNode),
        insertionLoop refs cur anc = some ip →
          ∃ (k : Nat) (n p : SelNode), (cur :: anc)[k]? = some n ∧ anc[k]? = some p
            ∧ getStmt n.ast = some ip
            ∧ p.ast.cls = NodeCls.compoundStmt
            ∧ p.ast.range.b.macroID = false)
      ∧ insertionLoop [] inMacNode [macBlockNode, outerBlockNode] = some astMacBlock := by
  refine ⟨?_, by decide⟩
  intro refs cur anc
  induction anc generalizing cur with
  | nil => intro ip h; simp [insertionLoop] at h
  | cons parent rest ih =>
    intro ip h
    simp only [insertionLoop] at h
    split at h
    · simp at h
    · split at h
      · simp at h
      · split at h
        · rename_i hcomp
          split at h
          · obtain ⟨k, n, p, h1, h2, h3, h4, h5⟩ := ih parent ip h
            exact ⟨k + 1, n, p, by rw [List.getElem?_cons_succ]; exact h1,
                   by rw [List.getElem?_cons_succ]; exact h2, h3, h4, h5⟩
          · rename_i hmac
            exact ⟨0, cur, parent, by simp, by simp, h, hcomp,
                   by simpa using hmac⟩
        · obtain ⟨k, n, p, h1, h2, h3, h4, h5⟩ := ih parent ip h
          exact ⟨k + 1, n, p, by rw [List.getElem?_cons_succ]; exact h1,
                 by rw [List.getElem?_cons_succ]; exact h2, h3, h4, h5⟩

/-- C9: for a candidate expression whose selection-tree parent is a
parameter declaration (the expression is the parameter's
default-argument initializer), the insertion-point search halts at once
— it returns no insertion point whatever referenced declarations or
further ancestors exist — and the resulting extraction context is not
extractable. -/
theorem parm_parent_halts (refs : List CDecl) (cur parent : SelNode)
    (rest : List SelNode) (ic : Bool) (initId : Option Nat)
    (hexpr : cur.ast.cls.isExprCls = true)
    (hparm : parent.ast.cls = NodeCls.varDecl true ic initId) :
    insertionLoop refs cur (parent :: rest) = none
      ∧ ∀ lang : LangOptions,
          (ExtractionContext.make ⟨cur, parent :: rest⟩ lang).extractable = false := by
  have hcan : canExtractOutside cur.ast parent.ast = false := by
    simp [canExtractOutside, getStmt, getParmVarDecl, NodeCls.isStmtCls, hexpr, hparm]
  have hgen : ∀ refs' : List CDecl, insertionLoop refs' cur (parent :: rest) = none := by
    intro refs'
    simp [insertionLoop, hcan]
  refine ⟨hgen refs, ?_⟩
  intro lang
  simp [ExtractionContext.make, hgen]

/-- Helper: a candidate whose outer-implicit node has no parent in the
selection tree fails the eligibility filter. -/
theorem eligible_no_parent (pos : SelPos)
    (h : (outerImplicitAst pos.node.ast pos.ancestors).2 = []) :
    eligibleForExtraction pos = false := by
  rcases hoi : outerImplicitAst pos.node.ast pos.ancestors with ⟨oi, anc2⟩
  rw [hoi] at h
  simp only at h
  subst h
  simp only [eligibleForExtraction]
  cases hget : getExpr pos.node.ast with
  | none => rfl
  | some e =>
    simp only [hoi]
    split
    · rfl
    · split
      · rfl
      · split
        · rfl
        · split
          · rfl
          · rfl

/-- C10: when the chosen candidate node, after ascending through its
implicit wrappers, has no parent in the selection tree, the eligibility
filter returns false; consequently prepare on a root-level common
ancestor (one with an empty ancestor chain) always reports the refactor
as not applicable. -/
theorem root_candidate_not_applicable :
    (∀ pos : SelPos,
        (outerImplicitAst pos.node.ast pos.ancestors).2 = [] →
          eligibleForExtraction pos = false)
      ∧ (∀ (selBegin selEnd : Nat) (n : SelNode) (lang : LangOptions),
          prepareExtractVariable selBegin selEnd (some ⟨n, []⟩) lang = false) := by
  refine ⟨eligible_no_parent, ?_⟩
  intro selBegin selEnd n lang
  have hce : computeExtractedExpr ⟨n, []⟩ = none := by
    simp only [computeExtractedExpr]
    cases hget : getExpr (SelPos.mk n []).node.ast with
    | none => rfl
    | some se =>
      have hcall : getCallExpr ⟨n, []⟩ = none := by
        simp [getCallExpr, outerImplicitAst]
      have helig : eligibleForExtraction ⟨n, []⟩ = false :=
        eligible_no_parent ⟨n, []⟩ rfl
      simp [hcall, helig]
  simp [prepareExtractVariable, hce]

/-- Helper: what apply evaluates to once the insertion point is known —
either the conflict error from adding the second edit, or the complete
two-edit set. -/
theorem apply_eval (sm : SourceManager) (ctx : ExtractionContext)
    (ip : AstNode) (hip : ctx.insertionPoint = some ip) :
    applyExtractVariable sm ctx
      = (if rangesConflict
            (ctx.insertDeclaration sm ip "placeholder"
              (getExtractionChars ctx.exprNode) (!applyIsExprStmt ctx.exprNode))
            (replaceWithVar (getExtractionChars ctx.exprNode)
              (if applyIsExprStmt ctx.exprNode then "" else "placeholder")) = true
         then Except.error "conflict"
         else Except.ok
            [ctx.insertDeclaration sm ip "placeholder"
               (getExtractionChars ctx.exprNode) (!applyIsExprStmt ctx.exprNode),
             replaceWithVar (getExtractionChars ctx.exprNode)
               (if applyIsExprStmt ctx.exprNode then "" else "placeholder")]) := by
  by_cases hc : rangesConflict
      (ctx.insertDeclaration sm ip "placeholder"
        (getExtractionChars ctx.exprNode) (!applyIsExprStmt ctx.exprNode))
      (replaceWithVar (getExtractionChars ctx.exprNode)
        (if applyIsExprStmt ctx.exprNode then "" else "placeholder")) = true <;>
    simp [applyExtractVariable, hip, addReplacement, hc]

/-- C4: for every context with an insertion point, apply either reports
an error (when adding an edit reports a conflict) or returns the
complete edit set of exactly two mutually non-conflicting edits — the
zero-length declaration insertion and the reference substitution —
targeting the same buffer; it never returns a proper subset of the
edits. -/
theorem apply_complete_or_error (sm : SourceManager) (ctx : ExtractionContext)
    (ip : AstNode) (hip : ctx.insertionPoint = some ip) :
    (∃ msg, applyExtractVariable sm ctx = Except.error msg)
      ∨ (∃ d s, applyExtractVariable sm ctx = Except.ok [d, s]
          ∧ rangesConflict d s = false ∧ d.fid = s.fid ∧ d.len = 0) := by
  by_cases hc : rangesConflict
      (ctx.insertDeclaration sm ip "placeholder"
        (getExtractionChars ctx.exprNode) (!applyIsExprStmt ctx.exprNode))
      (replaceWithVar (getExtractionChars ctx.exprNode)
        (if applyIsExprStmt ctx.exprNode then "" else "placeholder")) = true
  · rw [apply_eval sm ctx ip hip, if_pos hc]
    exact Or.inl ⟨"conflict", rfl⟩
  · rw [apply_eval sm ctx ip hip, if_neg hc]
    refine Or.inr ⟨_, _, rfl, by simpa using hc, ?_, rfl⟩
    simp only [rangesConflict, Bool.or_eq_true, not_or] at hc
    have h1 := hc.1.1
    simpa using h1

/-- C8: the edits apply emits are exactly the declaration insertion and
the substitution of the extraction range: the substitution edit covers
the extraction range and carries the variable name, except when the
extraction is itself an expression statement (its outer-implicit parent
is a compound statement), in which case it carries empty text; the
inserted declaration ends in a semicolon if and only if the extraction
is not an expression statement. -/
theorem substitution_edit_shape (sm : SourceManager) (ctx : ExtractionContext)
    (ip : AstNode) (rs : List Replacement)
    (hip : ctx.insertionPoint = some ip)
    (hok : applyExtractVariable sm ctx = Except.ok rs) :
    rs = [ctx.insertDeclaration sm ip "placeholder"
            (getExtractionChars ctx.exprNode) (!applyIsExprStmt ctx.exprNode),
          replaceWithVar (getExtractionChars ctx.exprNode)
            (if applyIsExprStmt ctx.exprNode then "" else "placeholder")]
      ∧ (replaceWithVar (getExtractionChars ctx.exprNode)
            (if applyIsExprStmt ctx.exprNode then "" else "placeholder")).off
          = (getExtractionChars ctx.exprNode).b.off
      ∧ (replaceWithVar (getExtractionChars ctx.exprNode)
            (if applyIsExprStmt ctx.exprNode then "" else "placeholder")).len
          = (getExtractionChars ctx.exprNode).e.off
              - (getExtractionChars ctx.exprNode).b.off
      ∧ (replaceWithVar (getExtractionChars ctx.exprNode)
            (if applyIsExprStmt ctx.exprNode then "" else "placeholder")).text
          = (if applyIsExprStmt ctx.exprNode then "" else "placeholder")
      ∧ (ctx.insertDeclaration sm ip "placeholder"
            (getExtractionChars ctx.exprNode) (!applyIsExprStmt ctx.exprNode)).text
          = printType ctx.varType "placeholder" ++ " = "
              ++ toSourceCode sm (getExtractionChars ctx.exprNode)
              ++ (if applyIsExprStmt ctx.exprNode then "" else "; ") := by
  rw [apply_eval sm ctx ip hip] at hok
  refine ⟨?_, rfl, rfl, rfl, ?_⟩
  · by_cases hc : rangesConflict
        (ctx.insertDeclaration sm ip "placeholder"
          (getExtractionChars ctx.exprNode) (!applyIsExprStmt ctx.exprNode))
        (replaceWithVar (getExtractionChars ctx.exprNode)
          (if applyIsExprStmt ctx.exprNode then "" else "placeholder")) = true
    · rw [if_pos hc] at hok
      cases hok
    · rw [if_neg hc] at hok
      exact (Except.ok.inj hok).symm
  · cases hes : applyIsExprStmt ctx.exprNode <;>
      simp [ExtractionContext.insertDeclaration, hes]

/-- Witness: apply_complete_or_error at the apply fixture, whose
insertion point is the declaration statement. -/
theorem apply_complete_or_error_witness :
    ctxA.insertionPoint = some astDeclStmtX
      ∧ ((∃ msg, applyExtractVariable sm0 ctxA = Except.error msg)
          ∨ (∃ d s, applyExtractVariable sm0 ctxA = Except.ok [d, s]
              ∧ rangesConflict d s = false ∧ d.fid = s.fid ∧ d.len = 0)) :=
  ⟨by decide, apply_complete_or_error sm0 ctxA astDeclStmtX (by decide)⟩

/-- Witness: substitution_edit_shape at the apply fixture, whose apply
run succeeds with the two concrete edits of rsA. -/
theorem substitution_edit_shape_witness :
    ctxA.insertionPoint = some astDeclStmtX
      ∧ applyExtractVariable sm0 ctxA = Except.ok rsA
      ∧ (rsA = [ctxA.insertDeclaration sm0 astDeclStmtX "placeholder"
                  (getExtractionChars ctxA.exprNode) (!applyIsExprStmt ctxA.exprNode),
                replaceWithVar (getExtractionChars ctxA.exprNode)
                  (if applyIsExprStmt ctxA.exprNode then "" else "placeholder")]
          ∧ (replaceWithVar (getExtractionChars ctxA.exprNode)
                (if applyIsExprStmt ctxA.exprNode then "" else "placeholder")).off
              = (getExtractionChars ctxA.exprNode).b.off
          ∧ (replaceWithVar (getExtractionChars ctxA.exprNode)
                (if applyIsExprStmt ctxA.exprNode then "" else "placeholder")).len
              = (getExtractionChars ctxA.exprNode).e.off
                  - (getExtractionChars ctxA.exprNode).b.off
          ∧ (replaceWithVar (getExtractionChars ctxA.exprNode)
                (if applyIsExprStmt ctxA.exprNode then "" else "placeholder")).text
              = (if applyIsExprStmt ctxA.exprNode then "" else "placeholder")
          ∧ (ctxA.insertDeclaration sm0 astDeclStmtX "placeholder"
                (getExtractionChars ctxA.exprNode) (!applyIsExprStmt ctxA.exprNode)).text
              = printType ctxA.varType "placeholder" ++ " = "
                  ++ toSourceCode sm0 (getExtractionChars ctxA.exprNode)
                  ++ (if applyIsExprStmt ctxA.exprNode then "" else "; ")) :=
  ⟨by decide, by rfl,
   substitution_edit_shape sm0 ctxA astDeclStmtX rsA (by decide) (by rfl)⟩

/-- Witness: parm_parent_halts at the defaulted-parameter fixture. -/
theorem parm_parent_halts_witness :
    parmInitNode.ast.cls.isExprCls = true
      ∧ parmDeclNode.ast.cls = NodeCls.varDecl true false (some 60)
      ∧ (insertionLoop [] parmInitNode parmChainAnc = none
          ∧ ∀ lang : LangOptions,
              (ExtractionContext.make ⟨parmInitNode, parmChainAnc⟩ lang).extractable
                = false) :=
  ⟨by decide, by decide,
   parm_parent_halts [] parmInitNode parmDeclNode
     [SelNode.mk astParmDeclStmt .partialSel [], SelNode.mk astParmBlock .partialSel []]
     false (some 60) (by decide) (by decide)⟩

end ExtractVar
